import Mathlib

/-!
Shallow embedding of `src/bots/nanba_paper_trading_real_price.py`
(class `PaperTradingBotRealPrice`): the paper-trading position state
machine (`open_position`, `update_positions`, `close_position`) and the
signal generator (`generate_signals`).

Modelling conventions:
* Monetary quantities, prices and percentages are exact rationals (`ℚ`).
* The Python dict `self.positions` (symbol → position dict) is an
  association list in insertion order; `del` is a key filter.
* Logging, Telegram notifications, timestamps (`opened_at`/`closed_at`)
  and file persistence (`save_state`/`load_state`) have no influence on
  the trading state and are omitted.
* `reason` strings keep only the fixed leading tag of the Python
  f-string (the interpolated amounts are presentation only).
* The quote map `prices` is modelled by its mid prices
  (`prices[symbol]['mid']`), the only field the trading logic reads;
  a symbol absent from the map has value `none`.
-/

namespace PaperTradingBotRealPrice

/-- Instance attributes set in `__init__` that parameterize the trading
logic, with the literal defaults from the source. -/
structure Config where
  symbols : List String := ["BTC", "ETH", "SOL"]
  max_position_size : ℚ := 150
  tp_percent : ℚ := 6/10
  sl_percent : ℚ := 3
  min_confidence : ℚ := 60
deriving DecidableEq, Repr

/-- The configuration produced by `__init__` with no edits. -/
def defaultConfig : Config := {}

/-- A raw sweep event from the Moon Dev feed, with the fields read by
`generate_signals` (`trader`, `market`, `side`, `usd_amount`, `size`). -/
structure Sweep where
  trader : String
  market : String
  side : String
  usd_amount : ℚ
  size : ℚ
deriving DecidableEq, Repr

/-- A signal dict as built in `generate_signals` and consumed by
`open_position`. -/
structure Signal where
  symbol : String
  side : String
  reason : String
  confidence : ℚ
  size : ℚ
  price : ℚ
deriving DecidableEq, Repr

/-- A position dict as built in `open_position`.  The Python `id` field
is the string `POS_%04d % trade_counter`; we keep the counter value
itself.  `opened_at` is a wall-clock timestamp and is omitted. -/
structure Position where
  id : Nat
  symbol : String
  side : String
  entry_price : ℚ
  size : ℚ
  tp_price : ℚ
  sl_price : ℚ
  confidence : ℚ
  reason : String
deriving DecidableEq, Repr

/-- A closed-trade dict as built in `close_position` (`closed_at` and
`opened_at` timestamps omitted). -/
structure Trade where
  id : Nat
  symbol : String
  side : String
  entry_price : ℚ
  exit_price : ℚ
  size : ℚ
  pnl_pct : ℚ
  pnl_amount : ℚ
  reason : String
deriving DecidableEq, Repr

/-- The mutable account state of the bot: `self.balance`,
`self.initial_balance`, `self.positions` (dict symbol → position, in
insertion order), `self.trades`, `self.trade_counter`. -/
structure BotState where
  balance : ℚ
  initial_balance : ℚ
  positions : List (String × Position)
  trades : List Trade
  trade_counter : Nat
deriving DecidableEq, Repr

/-- The state after `__init__(initial_balance)` when no saved state file
exists: empty positions and trades, zero trade counter. -/
def initial_state (initial_balance : ℚ) : BotState :=
  { balance := initial_balance
    initial_balance := initial_balance
    positions := []
    trades := []
    trade_counter := 0 }

/-- Python dict lookup `positions[symbol]` / membership
`symbol in positions` on the association-list model. -/
def posLookup (positions : List (String × Position)) (symbol : String) :
    Option Position :=
  match positions with
  | [] => none
  | p :: rest => if p.1 = symbol then some p.2 else posLookup rest symbol

/-- Python `del positions[symbol]` on the association-list model. -/
def posDelete (positions : List (String × Position)) (symbol : String) :
    List (String × Position) :=
  positions.filter (fun p => p.1 != symbol)

/-- In the source, `get_hyperliquid_price` returns a dict out of which the trading
logic only reads `['mid']`; a cycle's price map is therefore modelled
as a partial map from symbol to mid price. -/
def Quotes := String → Option ℚ

/-- Model of `open_position(signal)`: skip if a position for the symbol already
exists, skip if `size > balance`, otherwise derive TP/SL from the entry
price and side, store the position, escrow the size out of the balance
and bump the trade counter. -/
def open_position (cfg : Config) (st : BotState) (signal : Signal) : BotState :=
  if (posLookup st.positions signal.symbol).isSome then st
  else if st.balance < signal.size then st
  else
    let entry_price := signal.price
    let tp_price :=
      if signal.side = "BUY" then entry_price * (1 + cfg.tp_percent / 100)
      else entry_price * (1 - cfg.tp_percent / 100)
    let sl_price :=
      if signal.side = "BUY" then entry_price * (1 - cfg.sl_percent / 100)
      else entry_price * (1 + cfg.sl_percent / 100)
    let position : Position :=
      { id := st.trade_counter
        symbol := signal.symbol
        side := signal.side
        entry_price := entry_price
        size := signal.size
        tp_price := tp_price
        sl_price := sl_price
        confidence := signal.confidence
        reason := signal.reason }
    { st with
        positions := st.positions ++ [(signal.symbol, position)]
        balance := st.balance - signal.size
        trade_counter := st.trade_counter + 1 }

/-- Model of `close_position(position, exit_price, reason, pnl_pct)`: credit the
escrowed size plus the realized P&L back to the balance, append the
trade record, delete the position's symbol from the open-position dict. -/
def close_position (st : BotState) (position : Position) (exit_price : ℚ)
    (reason : String) (pnl_pct : ℚ) : BotState :=
  let pnl_amount := position.size * (pnl_pct / 100)
  let trade : Trade :=
    { id := position.id
      symbol := position.symbol
      side := position.side
      entry_price := position.entry_price
      exit_price := exit_price
      size := position.size
      pnl_pct := pnl_pct
      pnl_amount := pnl_amount
      reason := reason }
  { st with
      balance := st.balance + position.size + pnl_amount
      trades := st.trades ++ [trade]
      positions := posDelete st.positions position.symbol }

/-- The body of the `update_positions` loop for one snapshot item
`(symbol, position)`: skip when the symbol has no quote this cycle,
otherwise compute the directional percentage P&L from the mid price
and close at take profit (`pnl_pct >= tp_percent`, checked first) or
stop loss (`pnl_pct <= -sl_percent`). -/
def update_one (cfg : Config) (quotes : Quotes) (st : BotState)
    (item : String × Position) : BotState :=
  match quotes item.1 with
  | none => st
  | some current_price =>
    let position := item.2
    let entry_price := position.entry_price
    let pnl_pct :=
      if position.side = "BUY" then
        (current_price - entry_price) / entry_price * 100
      else
        (entry_price - current_price) / entry_price * 100
    if cfg.tp_percent ≤ pnl_pct then
      close_position st position current_price "TAKE_PROFIT" pnl_pct
    else if pnl_pct ≤ -cfg.sl_percent then
      close_position st position current_price "STOP_LOSS" pnl_pct
    else st

/-- Model of `update_positions(prices)`: iterate over a snapshot
`list(self.positions.items())` of the open positions, evaluating each
item once against the quote map. -/
def update_positions (cfg : Config) (quotes : Quotes) (st : BotState) : BotState :=
  st.positions.foldl (update_one cfg quotes) st

/-- Bool test that `needle` is an initial segment of `hay`. -/
def leadsWith : List Char → List Char → Bool
  | [], _ => true
  | _ :: _, [] => false
  | c :: cs, d :: ds => c == d && leadsWith cs ds

/-- Python substring containment `needle in hay` on char lists. -/
def occursIn (needle : List Char) (hay : List Char) : Bool :=
  match hay with
  | [] => leadsWith needle []
  | _ :: rest => leadsWith needle hay || occursIn needle rest

/-- Symbol resolution in `generate_signals`: the first tracked symbol
`s` with `s in market.upper()`; `upper()` is modelled per character
(all strings involved are ASCII). -/
def resolve_symbol (symbols : List String) (market : String) : Option String :=
  symbols.find? (fun s => occursIn s.data (market.data.map Char.toUpper))

/-- The signals contributed by a single sweep in the `generate_signals`
loop: nothing when the market resolves to no tracked symbol or the
symbol has no quote; otherwise the large-liquidation signal (inverse
side) when `usd_amount >= 50000 and size > 1000`, followed by the whale
signal (same side, confidence 75) when the sweep's trader has at least
two events of at least 10000 USD in the batch. -/
def process_sweep (cfg : Config) (balance : ℚ) (sweeps : List Sweep)
    (quotes : Quotes) (sweep : Sweep) : List Signal :=
  match resolve_symbol cfg.symbols sweep.market with
  | none => []
  | some symbol =>
    match quotes symbol with
    | none => []
    | some mid =>
      (if (50000 : ℚ) ≤ sweep.usd_amount ∧ (1000 : ℚ) < sweep.size then
        [{ symbol := symbol
           side := if sweep.side = "SELL" then "BUY" else "SELL"
           reason := "Large liquidation"
           confidence := min (sweep.usd_amount / 100000) (9/10) * 100
           size := min (min (sweep.usd_amount * (1/100)) (balance * (15/100)))
                     cfg.max_position_size
           price := mid }]
      else []) ++
      (if 2 ≤ (sweeps.filter (fun t =>
            t.trader == sweep.trader && decide ((10000 : ℚ) ≤ t.usd_amount))).length then
        [{ symbol := symbol
           side := sweep.side
           reason := "Whale"
           confidence := 75
           size := min (min (sweep.usd_amount * (1/10)) (balance * (15/100)))
                     cfg.max_position_size
           price := mid }]
      else [])

/-- Model of `generate_signals(sweeps, prices)`: the per-sweep contributions
appended in batch order (the trader-activity grouping built at the top
of the Python function is recovered here by filtering the batch for the
current sweep's trader). -/
def generate_signals (cfg : Config) (balance : ℚ) (sweeps : List Sweep)
    (quotes : Quotes) : List Signal :=
  sweeps.foldl (fun acc sweep => acc ++ process_sweep cfg balance sweeps quotes sweep) []

/-- The per-signal body of step 4 of `run`: open a position only when
the signal's confidence reaches `min_confidence`. -/
def admit_signal (cfg : Config) (st : BotState) (signal : Signal) : BotState :=
  if cfg.min_confidence ≤ signal.confidence then open_position cfg st signal else st

/-- Step 4 of `run` over a whole signal batch. -/
def admit_signals (cfg : Config) (st : BotState) (signals : List Signal) : BotState :=
  signals.foldl (admit_signal cfg) st

/-- One atomic account transition of the bot: admitting one signal
(step 4 of `run`) or one evaluation sweep over the open positions
(step 5 of `run`) under an arbitrary quote map. -/
inductive Step (cfg : Config) : BotState → BotState → Prop where
  | admit_sig (st : BotState) (signal : Signal) :
      Step cfg st (admit_signal cfg st signal)
  | update (st : BotState) (quotes : Quotes) :
      Step cfg st (update_positions cfg quotes st)

/-- States reachable from a fresh account by any sequence of signal
admissions and position-evaluation sweeps. -/
def Reachable (cfg : Config) (initial_balance : ℚ) (st : BotState) : Prop :=
  Relation.ReflTransGen (Step cfg) (initial_state initial_balance) st

/-- The keys of the open-position dict are pairwise distinct (true of
any Python dict; maintained explicitly for the association-list model). -/
def keysNodup (st : BotState) : Prop :=
  (st.positions.map Prod.fst).Nodup

/-- Every stored position records the symbol it is keyed under. -/
def keyConsistent (st : BotState) : Prop :=
  ∀ p ∈ st.positions, p.2.symbol = p.1

/-- Total size escrowed in the open positions. -/
def sizesSum (positions : List (String × Position)) : ℚ :=
  (positions.map (fun p => p.2.size)).sum

/-- Total realized P&L over the closed trades. -/
def pnlSum (trades : List Trade) : ℚ :=
  (trades.map (fun t => t.pnl_amount)).sum

/-- The conserved account quantity: free balance plus escrowed sizes of
the open positions minus the realized P&L of the closed trades. -/
def acctQ (st : BotState) : ℚ :=
  st.balance + sizesSum st.positions - pnlSum st.trades

/-! ### Concrete fixtures used to instantiate the theorems -/

/-- A sample open position (Scenario A of the spec: BUY BTC at 50000,
size 100, with the default TP/SL percentages). -/
def samplePosition : Position :=
  { id := 0
    symbol := "BTC"
    side := "BUY"
    entry_price := 50000
    size := 100
    tp_price := 50300
    sl_price := 48500
    confidence := 70
    reason := "r" }

/-- A sample account state holding `samplePosition`. -/
def sampleState : BotState :=
  { balance := 900
    initial_balance := 1000
    positions := [("BTC", samplePosition)]
    trades := []
    trade_counter := 1 }

/-- The Scenario A signal: BUY BTC at mid 50000, size 100, confidence 70. -/
def sampleSignal : Signal :=
  { symbol := "BTC"
    side := "BUY"
    reason := "r"
    confidence := 70
    size := 100
    price := 50000 }

/-- The Scenario C sweep: a SELL sweep on ETH-PERP of 60000 USD, size 1500. -/
def sweepScenarioC : Sweep :=
  { trader := "T"
    market := "ETH-PERP"
    side := "SELL"
    usd_amount := 60000
    size := 1500 }

/-- The Scenario D sweep: one of two identical 12000-USD sweeps by trader T1. -/
def sweepScenarioD : Sweep :=
  { trader := "T1"
    market := "BTC-PERP"
    side := "BUY"
    usd_amount := 12000
    size := 500 }

/-- A quote map carrying only an ETH mid price. -/
def quotesETH : Quotes :=
  fun s => if s = "ETH" then some 3000 else none

/-- A quote map carrying only a BTC mid price. -/
def quotesBTC : Quotes :=
  fun s => if s = "BTC" then some 50000 else none

/-- A size-0 signal as produced by the liquidation sizing formula at
zero balance. -/
def zeroSignal : Signal :=
  { symbol := "BTC"
    side := "BUY"
    reason := "r"
    confidence := 70
    size := 0
    price := 50000 }

/-! ### Association-list lemmas -/

lemma posLookup_eq_none (l : List (String × Position)) (sym : String) :
    posLookup l sym = none ↔ ∀ p ∈ l, p.1 ≠ sym := by
  induction l with
  | nil => simp [posLookup]
  | cons p rest ih =>
    by_cases hp : p.1 = sym
    · simp [posLookup, hp]
    · simp [posLookup, hp, ih]

lemma posLookup_mem {l : List (String × Position)} {sym : String} {v : Position}
    (h : posLookup l sym = some v) : (sym, v) ∈ l := by
  induction l with
  | nil => simp [posLookup] at h
  | cons p rest ih =>
    obtain ⟨k, w⟩ := p
    by_cases hp : k = sym
    · simp only [posLookup, if_pos hp] at h
      obtain rfl := Option.some.injEq .. ▸ h
      subst hp
      exact List.mem_cons_self _ _
    · simp only [posLookup, if_neg hp] at h
      exact List.mem_cons_of_mem _ (ih h)

lemma posLookup_append_right (l l' : List (String × Position)) (sym : String)
    (h : posLookup l sym = none) :
    posLookup (l ++ l') sym = posLookup l' sym := by
  induction l with
  | nil => rfl
  | cons p rest ih =>
    by_cases hp : p.1 = sym
    · simp [posLookup, hp] at h
    · simp only [List.cons_append, posLookup, if_neg hp] at h ⊢
      exact ih h

lemma posLookup_singleton (k : String) (v : Position) :
    posLookup [(k, v)] k = some v := by
  simp [posLookup]

lemma posLookup_delete_self (l : List (String × Position)) (k : String) :
    posLookup (posDelete l k) k = none := by
  rw [posLookup_eq_none]
  intro p hp
  have hmem := List.mem_filter.mp hp
  simpa using hmem.2

lemma posLookup_delete_ne (l : List (String × Position)) (k sym : String)
    (h : sym ≠ k) :
    posLookup (posDelete l k) sym = posLookup l sym := by
  induction l with
  | nil => rfl
  | cons p rest ih =>
    by_cases hp : p.1 = k
    · have hks : ¬ k = sym := fun e => h e.symm
      simp [posDelete, List.filter_cons, hp, posLookup, hks] at ih ⊢
      exact ih
    · simp only [posDelete, List.filter_cons] at ih ⊢
      rw [if_pos (by simpa using hp)]
      by_cases hps : p.1 = sym
      · simp [posLookup, hps]
      · simp only [posLookup, if_neg hps]
        exact ih

lemma sizesSum_append (l l' : List (String × Position)) :
    sizesSum (l ++ l') = sizesSum l + sizesSum l' := by
  simp [sizesSum]

lemma pnlSum_append (l l' : List Trade) :
    pnlSum (l ++ l') = pnlSum l + pnlSum l' := by
  simp [pnlSum]

lemma sizesSum_delete {l : List (String × Position)} {k : String} {v : Position}
    (hnd : (l.map Prod.fst).Nodup) (hmem : (k, v) ∈ l) :
    sizesSum (posDelete l k) = sizesSum l - v.size := by
  induction l with
  | nil => simp at hmem
  | cons p rest ih =>
    obtain ⟨pk, pv⟩ := p
    simp only [List.map_cons, List.nodup_cons] at hnd
    rcases List.mem_cons.mp hmem with heq | hmem'
    · obtain ⟨rfl, rfl⟩ := Prod.mk.injEq .. ▸ heq
      have hrest : List.filter (fun p => p.1 != k) rest = rest := by
        refine List.filter_eq_self.mpr (fun p hp => ?_)
        have : p.1 ∈ rest.map Prod.fst := List.mem_map_of_mem _ hp
        have hne : p.1 ≠ k := fun e => hnd.1 (e ▸ this)
        simpa using hne
      simp [posDelete, List.filter_cons, hrest, sizesSum]
    · have hk : k ∈ rest.map Prod.fst := by
        simpa using List.mem_map_of_mem Prod.fst hmem'
      have hpk : pk ≠ k := fun e => hnd.1 (e ▸ hk)
      have := ih hnd.2 hmem'
      simp only [posDelete, List.filter_cons] at this ⊢
      rw [if_pos (by simpa using hpk)]
      simp only [sizesSum, List.map_cons, List.sum_cons] at this ⊢
      rw [this]
      ring

/-! ### Characterization of the operations -/

lemma open_position_skip_dup (cfg : Config) (st : BotState) (sig : Signal)
    (h : (posLookup st.positions sig.symbol).isSome = true) :
    open_position cfg st sig = st := by
  simp [open_position, h]

lemma open_position_admit_eq (cfg : Config) (st : BotState) (sig : Signal)
    (h1 : posLookup st.positions sig.symbol = none)
    (h2 : ¬ st.balance < sig.size) :
    open_position cfg st sig =
      { st with
          positions := st.positions ++ [(sig.symbol,
            { id := st.trade_counter
              symbol := sig.symbol
              side := sig.side
              entry_price := sig.price
              size := sig.size
              tp_price := if sig.side = "BUY" then sig.price * (1 + cfg.tp_percent / 100)
                          else sig.price * (1 - cfg.tp_percent / 100)
              sl_price := if sig.side = "BUY" then sig.price * (1 - cfg.sl_percent / 100)
                          else sig.price * (1 + cfg.sl_percent / 100)
              confidence := sig.confidence
              reason := sig.reason })]
          balance := st.balance - sig.size
          trade_counter := st.trade_counter + 1 } := by
  unfold open_position
  rw [h1]
  simp [h2]

lemma update_one_eq_self_or_close (cfg : Config) (quotes : Quotes)
    (st : BotState) (item : String × Position) :
    update_one cfg quotes st item = st ∨
    ∃ price reason pnl, quotes item.1 = some price ∧
      update_one cfg quotes st item = close_position st item.2 price reason pnl := by
  unfold update_one
  cases hq : quotes item.1 with
  | none => exact Or.inl rfl
  | some current =>
    dsimp only
    split_ifs
    all_goals first
      | (left; rfl)
      | (right; exact ⟨current, _, _, rfl, rfl⟩)

/-! ### Preservation of the structural invariants -/

lemma keysNodup_open (cfg : Config) (st : BotState) (sig : Signal)
    (h : keysNodup st) : keysNodup (open_position cfg st sig) := by
  unfold open_position
  split
  · exact h
  · split
    · exact h
    · rename_i h1 h2
      unfold keysNodup at h ⊢
      simp only [List.map_append, List.map_cons, List.map_nil]
      rw [List.nodup_append]
      refine ⟨h, List.nodup_singleton _, ?_⟩
      intro a ha hb
      simp only [List.mem_singleton] at hb
      subst hb
      have hnone : posLookup st.positions sig.symbol = none := by
        cases hl : posLookup st.positions sig.symbol
        · rfl
        · exact absurd (by rw [hl]; rfl) h1
      rw [posLookup_eq_none] at hnone
      obtain ⟨p, hp, hpe⟩ := List.mem_map.mp ha
      exact hnone p hp hpe

lemma keyConsistent_open (cfg : Config) (st : BotState) (sig : Signal)
    (h : keyConsistent st) : keyConsistent (open_position cfg st sig) := by
  unfold open_position
  split
  · exact h
  · split
    · exact h
    · intro p hp
      rcases List.mem_append.mp hp with hmem | hmem
      · exact h p hmem
      · simp only [List.mem_singleton] at hmem
        subst hmem
        rfl

lemma acctQ_open (cfg : Config) (st : BotState) (sig : Signal) :
    acctQ (open_position cfg st sig) = acctQ st := by
  unfold open_position
  split
  · rfl
  · split
    · rfl
    · unfold acctQ
      simp only [sizesSum_append]
      simp [sizesSum]

lemma initial_balance_open (cfg : Config) (st : BotState) (sig : Signal) :
    (open_position cfg st sig).initial_balance = st.initial_balance := by
  unfold open_position
  split
  · rfl
  · split <;> rfl

lemma keysNodup_admit_signal (cfg : Config) (st : BotState) (sig : Signal)
    (h : keysNodup st) : keysNodup (admit_signal cfg st sig) := by
  unfold admit_signal
  split
  · exact keysNodup_open cfg st sig h
  · exact h

lemma keyConsistent_admit_signal (cfg : Config) (st : BotState) (sig : Signal)
    (h : keyConsistent st) : keyConsistent (admit_signal cfg st sig) := by
  unfold admit_signal
  split
  · exact keyConsistent_open cfg st sig h
  · exact h

lemma acctQ_admit_signal (cfg : Config) (st : BotState) (sig : Signal) :
    acctQ (admit_signal cfg st sig) = acctQ st := by
  unfold admit_signal
  split
  · exact acctQ_open cfg st sig
  · rfl

lemma initial_balance_admit_signal (cfg : Config) (st : BotState) (sig : Signal) :
    (admit_signal cfg st sig).initial_balance = st.initial_balance := by
  unfold admit_signal
  split
  · exact initial_balance_open cfg st sig
  · rfl

lemma keysNodup_close (st : BotState) (pos : Position) (price : ℚ)
    (reason : String) (pnl : ℚ) (h : keysNodup st) :
    keysNodup (close_position st pos price reason pnl) := by
  unfold keysNodup at h ⊢
  unfold close_position posDelete
  exact ((List.filter_sublist _).map Prod.fst).nodup h

lemma keyConsistent_close (st : BotState) (pos : Position) (price : ℚ)
    (reason : String) (pnl : ℚ) (h : keyConsistent st) :
    keyConsistent (close_position st pos price reason pnl) := by
  intro p hp
  exact h p (List.mem_of_mem_filter hp)

lemma acctQ_close (st : BotState) (pos : Position) (price : ℚ)
    (reason : String) (pnl : ℚ) (hnd : keysNodup st)
    (hmem : (pos.symbol, pos) ∈ st.positions) :
    acctQ (close_position st pos price reason pnl) = acctQ st := by
  unfold acctQ close_position
  dsimp only
  rw [sizesSum_delete hnd hmem, pnlSum_append]
  simp [pnlSum]
  ring

/-! ### The evaluation sweep -/

lemma update_fold_invariants (cfg : Config) (quotes : Quotes) :
    ∀ (items : List (String × Position)) (st : BotState),
      keysNodup st → keyConsistent st → items.Sublist st.positions →
      keysNodup (List.foldl (update_one cfg quotes) st items) ∧
      keyConsistent (List.foldl (update_one cfg quotes) st items) ∧
      acctQ (List.foldl (update_one cfg quotes) st items) = acctQ st ∧
      (List.foldl (update_one cfg quotes) st items).initial_balance =
        st.initial_balance := by
  intro items
  induction items with
  | nil =>
    intro st h1 h2 _
    exact ⟨h1, h2, rfl, rfl⟩
  | cons item tail ih =>
    intro st hnd hkc hsub
    have hmem : item ∈ st.positions := hsub.subset (List.mem_cons_self _ _)
    have hsym : item.2.symbol = item.1 := hkc item hmem
    rcases update_one_eq_self_or_close cfg quotes st item with heq |
      ⟨price, reason, pnl, hq, heq⟩
    · rw [List.foldl_cons, heq]
      exact ih st hnd hkc ((List.sublist_cons_self _ _).trans hsub)
    · rw [List.foldl_cons, heq]
      have hmem' : (item.2.symbol, item.2) ∈ st.positions := by
        rw [hsym]
        exact Prod.mk.eta ▸ hmem
      have hnd' := keysNodup_close st item.2 price reason pnl hnd
      have hkc' := keyConsistent_close st item.2 price reason pnl hkc
      have hQ := acctQ_close st item.2 price reason pnl hnd hmem'
      have htail : tail.Sublist
          (close_position st item.2 price reason pnl).positions := by
        show tail.Sublist (posDelete st.positions item.2.symbol)
        rw [hsym]
        have hkeys : (item.1 :: tail.map Prod.fst).Nodup := by
          have hsubk : ((item :: tail).map Prod.fst).Sublist
              (st.positions.map Prod.fst) := hsub.map Prod.fst
          simpa using hsubk.nodup hnd
        have hnotin : item.1 ∉ tail.map Prod.fst := (List.nodup_cons.mp hkeys).1
        have hfix : List.filter (fun p => p.1 != item.1) tail = tail := by
          refine List.filter_eq_self.mpr (fun p hp => ?_)
          have hkmem : p.1 ∈ tail.map Prod.fst := List.mem_map_of_mem _ hp
          have : p.1 ≠ item.1 := fun e => hnotin (e ▸ hkmem)
          simpa using this
        unfold posDelete
        rw [← hfix]
        exact List.Sublist.filter _ ((List.sublist_cons_self _ _).trans hsub)
      obtain ⟨a, b, c, d⟩ := ih _ hnd' hkc' htail
      exact ⟨a, b, by rw [c, hQ], by rw [d]; rfl⟩

lemma update_positions_invariants (cfg : Config) (quotes : Quotes)
    (st : BotState) (hnd : keysNodup st) (hkc : keyConsistent st) :
    keysNodup (update_positions cfg quotes st) ∧
    keyConsistent (update_positions cfg quotes st) ∧
    acctQ (update_positions cfg quotes st) = acctQ st ∧
    (update_positions cfg quotes st).initial_balance = st.initial_balance :=
  update_fold_invariants cfg quotes st.positions st hnd hkc (List.Sublist.refl _)

lemma update_fold_lookup_of_no_quote (cfg : Config) (quotes : Quotes)
    (sym : String) (hq : quotes sym = none) :
    ∀ (items : List (String × Position)) (st : BotState),
      (∀ p ∈ items, p.2.symbol = p.1) →
      posLookup (List.foldl (update_one cfg quotes) st items).positions sym =
        posLookup st.positions sym := by
  intro items
  induction items with
  | nil => intro st _; rfl
  | cons item tail ih =>
    intro st hkc
    rw [List.foldl_cons]
    have htail : ∀ p ∈ tail, p.2.symbol = p.1 :=
      fun p hp => hkc p (List.mem_cons_of_mem _ hp)
    rcases update_one_eq_self_or_close cfg quotes st item with heq |
      ⟨price, reason, pnl, hq1, heq⟩
    · rw [heq]
      exact ih st htail
    · rw [heq]
      have hsym : item.2.symbol = item.1 := hkc item (List.mem_cons_self _ _)
      have hne : sym ≠ item.2.symbol := by
        rw [hsym]
        intro e
        rw [e, hq1] at hq
        exact Option.noConfusion hq
      have hstep : posLookup (close_position st item.2 price reason pnl).positions sym =
          posLookup st.positions sym := by
        show posLookup (posDelete st.positions item.2.symbol) sym = _
        exact posLookup_delete_ne st.positions item.2.symbol sym hne
      rw [ih _ htail, hstep]

/-! ### Reachability invariant -/

lemma reachable_invariants {cfg : Config} {b : ℚ} {st : BotState}
    (h : Reachable cfg b st) :
    keysNodup st ∧ keyConsistent st ∧ acctQ st = b := by
  induction h with
  | refl =>
    refine ⟨?_, ?_, ?_⟩ <;>
      simp [keysNodup, keyConsistent, acctQ, initial_state, sizesSum, pnlSum]
  | tail hsteps hstep ih =>
    obtain ⟨hnd, hkc, hQ⟩ := ih
    cases hstep with
    | admit_sig sig =>
      exact ⟨keysNodup_admit_signal cfg _ sig hnd, keyConsistent_admit_signal cfg _ sig hkc,
        by rw [acctQ_admit_signal]; exact hQ⟩
    | update quotes =>
      obtain ⟨a, b', c, _⟩ := update_positions_invariants cfg quotes _ hnd hkc
      exact ⟨a, b', by rw [c]; exact hQ⟩

/-! ### Signal-generation lemmas -/

lemma mem_foldl_append_of_mem_acc {α β : Type} (f : α → List β) :
    ∀ (l : List α) (acc : List β) (x : β), x ∈ acc →
      x ∈ List.foldl (fun a s => a ++ f s) acc l := by
  intro l
  induction l with
  | nil => intro acc x hx; exact hx
  | cons s rest ih =>
    intro acc x hx
    exact ih _ x (List.mem_append_left _ hx)

lemma mem_generate_signals {cfg : Config} {balance : ℚ} {sweeps : List Sweep}
    {quotes : Quotes} {sweep : Sweep} {sig : Signal}
    (hs : sweep ∈ sweeps)
    (hsig : sig ∈ process_sweep cfg balance sweeps quotes sweep) :
    sig ∈ generate_signals cfg balance sweeps quotes := by
  unfold generate_signals
  have general : ∀ (l : List Sweep) (acc : List Signal), sweep ∈ l →
      sig ∈ List.foldl
        (fun acc sw => acc ++ process_sweep cfg balance sweeps quotes sw) acc l := by
    intro l
    induction l with
    | nil => intro acc h; simp at h
    | cons s rest ih =>
      intro acc h
      rcases List.mem_cons.mp h with rfl | h'
      · exact mem_foldl_append_of_mem_acc _ rest _ sig
          (List.mem_append_right _ hsig)
      · exact ih _ h'
  exact general sweeps [] hs

/-! ### Claim theorems -/

/-- C1: In every state reachable from a fresh account by signal
admissions and evaluation sweeps, each symbol keys at most one open
position; admitting a signal for a symbol that already has an open
position leaves the state unchanged; and a close removes exactly the
closed position's symbol, leaving every other symbol's entry intact. -/
theorem per_symbol_at_most_one_position (cfg : Config) (b : ℚ) (st : BotState)
    (hreach : Reachable cfg b st) :
    (∀ sym : String, (st.positions.map Prod.fst).count sym ≤ 1)
    ∧ (∀ (st' : BotState) (sig : Signal),
        (posLookup st'.positions sig.symbol).isSome = true →
        open_position cfg st' sig = st')
    ∧ (∀ (st' : BotState) (pos : Position) (price : ℚ) (reason : String) (pnl : ℚ),
        posLookup (close_position st' pos price reason pnl).positions pos.symbol
            = none ∧
        ∀ sym : String, sym ≠ pos.symbol →
          posLookup (close_position st' pos price reason pnl).positions sym =
            posLookup st'.positions sym) := by
  obtain ⟨hnd, -, -⟩ := reachable_invariants hreach
  refine ⟨?_, ?_, ?_⟩
  · intro sym
    exact List.nodup_iff_count_le_one.mp hnd sym
  · intro st' sig h
    exact open_position_skip_dup cfg st' sig h
  · intro st' pos price reason pnl
    refine ⟨?_, ?_⟩
    · show posLookup (posDelete st'.positions pos.symbol) pos.symbol = none
      exact posLookup_delete_self _ _
    · intro sym hne
      show posLookup (posDelete st'.positions pos.symbol) sym = _
      exact posLookup_delete_ne _ _ _ hne

/-- Witness for `per_symbol_at_most_one_position`: the fresh account is
reachable; a duplicate BTC admission into `sampleState` is a no-op; a
close of `samplePosition` deletes the BTC entry. -/
theorem per_symbol_at_most_one_position_witness :
    (((initial_state 1000).positions.map Prod.fst).count "BTC" ≤ 1)
    ∧ open_position defaultConfig sampleState sampleSignal = sampleState
    ∧ posLookup (close_position sampleState samplePosition 50300
        "TAKE_PROFIT" (6/10)).positions "BTC" = none := by
  have h := per_symbol_at_most_one_position defaultConfig 1000 (initial_state 1000)
    Relation.ReflTransGen.refl
  refine ⟨h.1 "BTC", h.2.1 sampleState sampleSignal (by decide), ?_⟩
  have hc := (h.2.2 sampleState samplePosition 50300 "TAKE_PROFIT" (6/10)).1
  simpa [samplePosition] using hc

/-- C5: Along every reachable execution, free balance plus the escrowed
sizes of the open positions minus the realized P&L of the closed trades
equals the initial balance; each admission and each evaluation sweep
preserves this quantity. -/
theorem capital_conservation_invariant (cfg : Config) (b : ℚ) (st : BotState)
    (hreach : Reachable cfg b st) :
    (st.balance + sizesSum st.positions - pnlSum st.trades = b)
    ∧ (∀ (st' : BotState) (sig : Signal),
        acctQ (admit_signal cfg st' sig) = acctQ st')
    ∧ (∀ (st' : BotState) (quotes : Quotes), keysNodup st' → keyConsistent st' →
        acctQ (update_positions cfg quotes st') = acctQ st') := by
  obtain ⟨-, -, hQ⟩ := reachable_invariants hreach
  exact ⟨hQ, fun st' sig => acctQ_admit_signal cfg st' sig,
    fun st' quotes hnd hkc =>
      (update_positions_invariants cfg quotes st' hnd hkc).2.2.1⟩

/-- Witness for `capital_conservation_invariant` at the fresh account,
one concrete admission and one concrete evaluation sweep. -/
theorem capital_conservation_invariant_witness :
    ((initial_state 1000).balance + sizesSum (initial_state 1000).positions
        - pnlSum (initial_state 1000).trades = 1000)
    ∧ acctQ (admit_signal defaultConfig (initial_state 1000) sampleSignal)
        = acctQ (initial_state 1000)
    ∧ acctQ (update_positions defaultConfig quotesBTC (initial_state 1000))
        = acctQ (initial_state 1000) := by
  have h := capital_conservation_invariant defaultConfig 1000 (initial_state 1000)
    Relation.ReflTransGen.refl
  exact ⟨h.1, h.2.1 (initial_state 1000) sampleSignal,
    h.2.2 (initial_state 1000) quotesBTC (by simp [keysNodup, initial_state])
      (fun p hp => nomatch hp)⟩

/-- C2: Opening deducts exactly the admitted position's size from the
balance, and closing credits back the size plus
`pnlUsd = sizeUsd * pnlPct / 100`. -/
theorem balance_escrow_and_credit (cfg : Config) (st : BotState) (sig : Signal)
    (h1 : posLookup st.positions sig.symbol = none)
    (h2 : sig.size ≤ st.balance) :
    ((open_position cfg st sig).balance = st.balance - sig.size
      ∧ ∃ pos : Position,
          posLookup (open_position cfg st sig).positions sig.symbol = some pos
          ∧ pos.size = sig.size)
    ∧ (∀ (st' : BotState) (pos : Position) (price : ℚ) (reason : String)
        (pnl_pct : ℚ),
        (close_position st' pos price reason pnl_pct).balance =
          st'.balance + pos.size + pos.size * (pnl_pct / 100)) := by
  have h2' : ¬ st.balance < sig.size := not_lt.mpr h2
  rw [open_position_admit_eq cfg st sig h1 h2']
  refine ⟨⟨rfl, ?_⟩, ?_⟩
  · refine ⟨{ id := st.trade_counter, symbol := sig.symbol, side := sig.side,
              entry_price := sig.price, size := sig.size,
              tp_price := if sig.side = "BUY" then sig.price * (1 + cfg.tp_percent / 100)
                          else sig.price * (1 - cfg.tp_percent / 100),
              sl_price := if sig.side = "BUY" then sig.price * (1 - cfg.sl_percent / 100)
                          else sig.price * (1 + cfg.sl_percent / 100),
              confidence := sig.confidence, reason := sig.reason }, ?_, rfl⟩
    rw [posLookup_append_right _ _ _ h1]
    exact posLookup_singleton _ _
  · intro st' pos price reason pnl_pct
    rfl

/-- Witness for `balance_escrow_and_credit`: Scenario A (1000 → 900 on
opening size 100) and Scenario B (900 + 100 + 0.62 = 1000.62 on closing
with pnlPct 0.62). -/
theorem balance_escrow_and_credit_witness :
    (open_position defaultConfig (initial_state 1000) sampleSignal).balance = 900
    ∧ (close_position sampleState samplePosition 50310 "TAKE_PROFIT"
        ((62 : ℚ)/100)).balance = 100062/100 := by
  have h := balance_escrow_and_credit defaultConfig (initial_state 1000)
    sampleSignal rfl (by norm_num [sampleSignal, initial_state])
  constructor
  · rw [h.1.1]
    norm_num [initial_state, sampleSignal]
  · rw [h.2 sampleState samplePosition 50310 "TAKE_PROFIT" ((62 : ℚ)/100)]
    norm_num [sampleState, samplePosition]

/-- C3-counterexample: a fresh account and a confidence-70 signal of
size 5 — below the claimed minimum floor of 10 — is nevertheless
admitted (the trade counter advances), so admission is not equivalent
to the claimed four-condition test. -/
theorem admission_min_floor_counterexample :
    ¬ ((admit_signal defaultConfig (initial_state 1000)
          { symbol := "BTC", side := "BUY", reason := "r",
            confidence := 70, size := 5, price := 50000 }).trade_counter
        = (initial_state 1000).trade_counter + 1 ↔
      (posLookup (initial_state 1000).positions "BTC" = none
        ∧ defaultConfig.min_confidence ≤ 70
        ∧ (10 : ℚ) ≤ 5
        ∧ (5 : ℚ) ≤ (initial_state 1000).balance)) := by
  intro hiff
  have hadm : (admit_signal defaultConfig (initial_state 1000)
      { symbol := "BTC", side := "BUY", reason := "r",
        confidence := 70, size := 5, price := 50000 }).trade_counter
      = (initial_state 1000).trade_counter + 1 := by
    norm_num [admit_signal, open_position, initial_state, posLookup, defaultConfig]
  have hfloor : (10 : ℚ) ≤ 5 := (hiff.mp hadm).2.2.1
  norm_num at hfloor

/-- C3-amended: a signal is admitted (trade counter advances, position
created) iff there is no open position for its symbol, its confidence
is at least `min_confidence`, and its size is at most the balance — the
code enforces no minimum size floor; a signal failing any of these
conditions is rejected with the state left unchanged. -/
theorem admission_iff_conditions (cfg : Config) (st : BotState) (sig : Signal) :
    ((admit_signal cfg st sig).trade_counter = st.trade_counter + 1 ↔
      (posLookup st.positions sig.symbol = none
        ∧ cfg.min_confidence ≤ sig.confidence
        ∧ sig.size ≤ st.balance))
    ∧ (¬ (posLookup st.positions sig.symbol = none
        ∧ cfg.min_confidence ≤ sig.confidence
        ∧ sig.size ≤ st.balance) →
      admit_signal cfg st sig = st) := by
  by_cases hc : cfg.min_confidence ≤ sig.confidence
  · by_cases hd : posLookup st.positions sig.symbol = none
    · by_cases hb : st.balance < sig.size
      · have heq : admit_signal cfg st sig = st := by
          unfold admit_signal
          rw [if_pos hc]
          unfold open_position
          rw [hd]
          simp [hb]
        refine ⟨?_, fun _ => heq⟩
        rw [heq]
        exact iff_of_false (fun habs => Nat.succ_ne_self _ habs.symm)
          (fun h => (not_lt.mpr h.2.2) hb)
      · have hadm : admit_signal cfg st sig = open_position cfg st sig := by
          unfold admit_signal
          rw [if_pos hc]
        refine ⟨iff_of_true ?_ ⟨hd, hc, not_lt.mp hb⟩,
          fun hneg => absurd ⟨hd, hc, not_lt.mp hb⟩ hneg⟩
        rw [hadm, open_position_admit_eq cfg st sig hd hb]
    · have hs : (posLookup st.positions sig.symbol).isSome = true := by
        cases hl : posLookup st.positions sig.symbol
        · exact absurd hl hd
        · rfl
      have heq : admit_signal cfg st sig = st := by
        unfold admit_signal
        rw [if_pos hc]
        exact open_position_skip_dup cfg st sig hs
      refine ⟨?_, fun _ => heq⟩
      rw [heq]
      exact iff_of_false (fun habs => Nat.succ_ne_self _ habs.symm)
        (fun h => hd h.1)
  · have heq : admit_signal cfg st sig = st := by
      unfold admit_signal
      rw [if_neg hc]
    refine ⟨?_, fun _ => heq⟩
    rw [heq]
    exact iff_of_false (fun habs => Nat.succ_ne_self _ habs.symm)
      (fun h => hc h.2.1)

/-- Witness for `admission_iff_conditions`: Scenario A's signal is
admitted into a fresh account, and the same signal is rejected without
any state change when a BTC position is already open. -/
theorem admission_iff_conditions_witness :
    ((admit_signal defaultConfig (initial_state 1000) sampleSignal).trade_counter
        = (initial_state 1000).trade_counter + 1)
    ∧ admit_signal defaultConfig sampleState sampleSignal = sampleState := by
  constructor
  · exact (admission_iff_conditions defaultConfig (initial_state 1000)
      sampleSignal).1.mpr
      ⟨rfl, by norm_num [defaultConfig, sampleSignal],
        by norm_num [initial_state, sampleSignal]⟩
  · refine (admission_iff_conditions defaultConfig sampleState sampleSignal).2 ?_
    rintro ⟨hnone, -, -⟩
    simp [sampleState, sampleSignal, posLookup] at hnone

/-- C4: Evaluating one open position against an available quote uses
the directional percentage P&L formula, closes with reason TAKE_PROFIT
iff `pnl_pct ≥ tp_percent` (boundary inclusive, checked first),
otherwise closes with reason STOP_LOSS iff `pnl_pct ≤ -sl_percent`
(boundary inclusive), and otherwise leaves the state unchanged — at
most one close per open position per evaluation. -/
theorem close_decision_boundary_inclusive (cfg : Config) (quotes : Quotes)
    (st : BotState) (sym : String) (pos : Position) (current pnl_pct : ℚ)
    (hq : quotes sym = some current)
    (hpnl : pnl_pct = if pos.side = "BUY"
        then (current - pos.entry_price) / pos.entry_price * 100
        else (pos.entry_price - current) / pos.entry_price * 100) :
    (cfg.tp_percent ≤ pnl_pct →
      update_one cfg quotes st (sym, pos) =
        close_position st pos current "TAKE_PROFIT" pnl_pct)
    ∧ (¬ cfg.tp_percent ≤ pnl_pct → pnl_pct ≤ -cfg.sl_percent →
      update_one cfg quotes st (sym, pos) =
        close_position st pos current "STOP_LOSS" pnl_pct)
    ∧ (¬ cfg.tp_percent ≤ pnl_pct → ¬ pnl_pct ≤ -cfg.sl_percent →
      update_one cfg quotes st (sym, pos) = st) := by
  subst hpnl
  unfold update_one
  dsimp only
  rw [hq]
  dsimp only
  refine ⟨?_, ?_, ?_⟩
  · intro h1
    rw [if_pos h1]
  · intro h1 h2
    rw [if_neg h1, if_pos h2]
  · intro h1 h2
    rw [if_neg h1, if_neg h2]

/-- Witness for `close_decision_boundary_inclusive`: `samplePosition`
closes TAKE_PROFIT at exactly +0.6% (mid 50300) and STOP_LOSS at
exactly -3% (mid 48500). -/
theorem close_decision_boundary_inclusive_witness :
    update_one defaultConfig (fun s => if s = "BTC" then some 50300 else none)
        sampleState ("BTC", samplePosition) =
      close_position sampleState samplePosition 50300 "TAKE_PROFIT" (6/10)
    ∧ update_one defaultConfig (fun s => if s = "BTC" then some 48500 else none)
        sampleState ("BTC", samplePosition) =
      close_position sampleState samplePosition 48500 "STOP_LOSS" (-3) := by
  constructor
  · have h := close_decision_boundary_inclusive defaultConfig
      (fun s => if s = "BTC" then some 50300 else none) sampleState "BTC"
      samplePosition 50300 (6/10) (by simp) (by norm_num [samplePosition])
    exact h.1 (by norm_num [defaultConfig])
  · have h := close_decision_boundary_inclusive defaultConfig
      (fun s => if s = "BTC" then some 48500 else none) sampleState "BTC"
      samplePosition 48500 (-3) (by simp) (by norm_num [samplePosition])
    exact h.2.1 (by norm_num [defaultConfig]) (by norm_num [defaultConfig])

/-- C6: For a sweep that resolves to a tracked symbol with an available
quote, its contribution contains a liquidation signal iff
`usd_amount ≥ 50000` and `size > 1000` (so below 50000 USD it never
yields one, regardless of size); a generated liquidation signal inverts
the event's side and carries `confidencePct = min(usd/100000, 0.9)*100`;
and for a sweep of the batch the signal appears in the cycle's full
signal list. -/
theorem liquidation_signal_characterization (cfg : Config) (balance : ℚ)
    (sweeps : List Sweep) (quotes : Quotes) (sweep : Sweep) (symbol : String)
    (mid : ℚ)
    (hres : resolve_symbol cfg.symbols sweep.market = some symbol)
    (hq : quotes symbol = some mid) :
    ((∃ sig ∈ process_sweep cfg balance sweeps quotes sweep,
        sig.reason = "Large liquidation") ↔
      ((50000 : ℚ) ≤ sweep.usd_amount ∧ (1000 : ℚ) < sweep.size))
    ∧ (∀ sig ∈ process_sweep cfg balance sweeps quotes sweep,
        sig.reason = "Large liquidation" →
          sig.symbol = symbol
          ∧ (sweep.side = "SELL" → sig.side = "BUY")
          ∧ (sweep.side = "BUY" → sig.side = "SELL")
          ∧ sig.confidence = min (sweep.usd_amount / 100000) (9/10) * 100
          ∧ sig.price = mid)
    ∧ (sweep ∈ sweeps → (50000 : ℚ) ≤ sweep.usd_amount →
        (1000 : ℚ) < sweep.size →
        ∃ sig ∈ generate_signals cfg balance sweeps quotes,
          sig.reason = "Large liquidation" ∧ sig.symbol = symbol
          ∧ (sweep.side = "SELL" → sig.side = "BUY")
          ∧ (sweep.side = "BUY" → sig.side = "SELL")
          ∧ sig.confidence = min (sweep.usd_amount / 100000) (9/10) * 100) := by
  have hproc : process_sweep cfg balance sweeps quotes sweep =
      (if (50000 : ℚ) ≤ sweep.usd_amount ∧ (1000 : ℚ) < sweep.size then
        [{ symbol := symbol,
           side := if sweep.side = "SELL" then "BUY" else "SELL",
           reason := "Large liquidation",
           confidence := min (sweep.usd_amount / 100000) (9/10) * 100,
           size := min (min (sweep.usd_amount * (1/100)) (balance * (15/100)))
             cfg.max_position_size,
           price := mid }]
      else []) ++
      (if 2 ≤ (sweeps.filter (fun t =>
          t.trader == sweep.trader && decide ((10000 : ℚ) ≤ t.usd_amount))).length then
        [{ symbol := symbol, side := sweep.side, reason := "Whale",
           confidence := 75,
           size := min (min (sweep.usd_amount * (1/10)) (balance * (15/100)))
             cfg.max_position_size,
           price := mid }]
      else []) := by
    unfold process_sweep
    rw [hres]
    dsimp only
    rw [hq]
  refine ⟨⟨?_, ?_⟩, ?_, ?_⟩
  · rintro ⟨sig, hsig, hreason⟩
    by_contra hA
    rw [hproc, if_neg hA, List.nil_append] at hsig
    by_cases hW : 2 ≤ (sweeps.filter (fun t =>
        t.trader == sweep.trader && decide ((10000 : ℚ) ≤ t.usd_amount))).length
    · rw [if_pos hW, List.mem_singleton] at hsig
      subst hsig
      simp at hreason
    · rw [if_neg hW] at hsig
      exact absurd hsig (List.not_mem_nil _)
  · intro hA
    refine ⟨{ symbol := symbol,
              side := if sweep.side = "SELL" then "BUY" else "SELL",
              reason := "Large liquidation",
              confidence := min (sweep.usd_amount / 100000) (9/10) * 100,
              size := min (min (sweep.usd_amount * (1/100)) (balance * (15/100)))
                cfg.max_position_size,
              price := mid }, ?_, rfl⟩
    rw [hproc, if_pos hA]
    exact List.mem_append_left _ (List.mem_cons_self _ _)
  · intro sig hsig hreason
    rw [hproc] at hsig
    rcases List.mem_append.mp hsig with hmem | hmem
    · by_cases hA : (50000 : ℚ) ≤ sweep.usd_amount ∧ (1000 : ℚ) < sweep.size
      · rw [if_pos hA, List.mem_singleton] at hmem
        subst hmem
        refine ⟨rfl, ?_, ?_, rfl, rfl⟩
        · intro hsell
          simp [hsell]
        · intro hbuy
          simp [hbuy]
      · rw [if_neg hA] at hmem
        exact absurd hmem (List.not_mem_nil _)
    · by_cases hW : 2 ≤ (sweeps.filter (fun t =>
          t.trader == sweep.trader && decide ((10000 : ℚ) ≤ t.usd_amount))).length
      · rw [if_pos hW, List.mem_singleton] at hmem
        subst hmem
        simp at hreason
      · rw [if_neg hW] at hmem
        exact absurd hmem (List.not_mem_nil _)
  · intro hmem hA1 hA2
    have hsig : ({ symbol := symbol,
                   side := if sweep.side = "SELL" then "BUY" else "SELL",
                   reason := "Large liquidation",
                   confidence := min (sweep.usd_amount / 100000) (9/10) * 100,
                   size := min (min (sweep.usd_amount * (1/100)) (balance * (15/100)))
                     cfg.max_position_size,
                   price := mid } : Signal)
        ∈ process_sweep cfg balance sweeps quotes sweep := by
      rw [hproc, if_pos ⟨hA1, hA2⟩]
      exact List.mem_append_left _ (List.mem_cons_self _ _)
    refine ⟨_, mem_generate_signals hmem hsig, rfl, rfl, ?_, ?_, rfl⟩
    · intro hsell
      simp [hsell]
    · intro hbuy
      simp [hbuy]

/-- Witness for `liquidation_signal_characterization` at Scenario C:
the 60000-USD SELL sweep on ETH-PERP yields a BUY liquidation signal on
ETH with confidence 60. -/
theorem liquidation_signal_characterization_witness :
    ∃ sig ∈ generate_signals defaultConfig 1000 [sweepScenarioC] quotesETH,
      sig.reason = "Large liquidation" ∧ sig.symbol = "ETH"
      ∧ sig.side = "BUY" ∧ sig.confidence = 60 := by
  have h := liquidation_signal_characterization defaultConfig 1000
    [sweepScenarioC] quotesETH sweepScenarioC "ETH" 3000
    (by decide) (by simp [quotesETH])
  obtain ⟨sig, hmem, h1, h2, h3, _, h5⟩ :=
    h.2.2 (List.mem_cons_self _ _) (by norm_num [sweepScenarioC])
      (by norm_num [sweepScenarioC])
  refine ⟨sig, hmem, h1, h2, h3 rfl, ?_⟩
  rw [h5]
  have : sweepScenarioC.usd_amount = 60000 := rfl
  rw [this, show min ((60000 : ℚ) / 100000) (9/10) = 3/5 from by
    rw [min_eq_left (by norm_num)]; norm_num]
  norm_num

/-- C7: On admission the TP and SL prices are the stated pure function
of the entry price (the signal's reference price), the side, and the
configured TP/SL percentages; the whole stored position is determined
by the signal and the pre-admission state. -/
theorem tp_sl_price_derivation (cfg : Config) (st : BotState) (sig : Signal)
    (h1 : posLookup st.positions sig.symbol = none)
    (h2 : sig.size ≤ st.balance) :
    (sig.side = "BUY" →
      posLookup (open_position cfg st sig).positions sig.symbol =
        some { id := st.trade_counter, symbol := sig.symbol, side := sig.side,
               entry_price := sig.price, size := sig.size,
               tp_price := sig.price * (1 + cfg.tp_percent / 100),
               sl_price := sig.price * (1 - cfg.sl_percent / 100),
               confidence := sig.confidence, reason := sig.reason })
    ∧ (sig.side = "SELL" →
      posLookup (open_position cfg st sig).positions sig.symbol =
        some { id := st.trade_counter, symbol := sig.symbol, side := sig.side,
               entry_price := sig.price, size := sig.size,
               tp_price := sig.price * (1 - cfg.tp_percent / 100),
               sl_price := sig.price * (1 + cfg.sl_percent / 100),
               confidence := sig.confidence, reason := sig.reason }) := by
  have h2' : ¬ st.balance < sig.size := not_lt.mpr h2
  rw [open_position_admit_eq cfg st sig h1 h2']
  constructor
  · intro hbuy
    rw [posLookup_append_right _ _ _ h1, posLookup_singleton]
    simp [hbuy]
  · intro hsell
    have hnb : ¬ sig.side = "BUY" := by
      rw [hsell]
      decide
    rw [posLookup_append_right _ _ _ h1, posLookup_singleton]
    simp [hnb]

/-- Witness for `tp_sl_price_derivation` at Scenario A: admitting the
BUY signal at mid 50000 stores exactly `samplePosition`
(tpPrice 50300, slPrice 48500) and drops the balance from 1000 to 900. -/
theorem tp_sl_price_derivation_witness :
    posLookup (open_position defaultConfig (initial_state 1000)
        sampleSignal).positions "BTC" = some samplePosition
    ∧ (open_position defaultConfig (initial_state 1000) sampleSignal).balance
        = 900 := by
  have h := tp_sl_price_derivation defaultConfig (initial_state 1000) sampleSignal
    rfl (by norm_num [sampleSignal, initial_state])
  constructor
  · have hb := h.1 rfl
    rw [show sampleSignal.symbol = "BTC" from rfl] at hb
    rw [hb]
    norm_num [samplePosition, sampleSignal, defaultConfig, initial_state,
      Position.mk.injEq]
  · norm_num [open_position, initial_state, sampleSignal, posLookup,
      defaultConfig]

/-- C8: A sweep of the batch that resolves to a quoted symbol and whose
trader has at least two events of at least 10000 USD within the batch
contributes a whale signal carrying the triggering event's own
(non-inverted) side, fixed confidence 75, and size
`min(usd*0.1, balance*0.15, max_position_size)`, into the cycle's
generated signal list. -/
theorem whale_signal_characterization (cfg : Config) (balance : ℚ)
    (sweeps : List Sweep) (quotes : Quotes) (sweep : Sweep) (symbol : String)
    (mid : ℚ)
    (hres : resolve_symbol cfg.symbols sweep.market = some symbol)
    (hq : quotes symbol = some mid)
    (hmem : sweep ∈ sweeps)
    (hwhale : 2 ≤ (sweeps.filter (fun t =>
        t.trader == sweep.trader && decide ((10000 : ℚ) ≤ t.usd_amount))).length) :
    ∃ sig ∈ generate_signals cfg balance sweeps quotes,
      sig.reason = "Whale" ∧ sig.symbol = symbol ∧ sig.side = sweep.side
      ∧ sig.confidence = 75
      ∧ sig.size = min (min (sweep.usd_amount * (1/10)) (balance * (15/100)))
          cfg.max_position_size
      ∧ sig.price = mid := by
  have hsig : ({ symbol := symbol, side := sweep.side, reason := "Whale",
                 confidence := 75,
                 size := min (min (sweep.usd_amount * (1/10)) (balance * (15/100)))
                   cfg.max_position_size,
                 price := mid } : Signal)
      ∈ process_sweep cfg balance sweeps quotes sweep := by
    unfold process_sweep
    rw [hres]
    dsimp only
    rw [hq]
    dsimp only
    rw [if_pos hwhale]
    exact List.mem_append_right _ (List.mem_cons_self _ _)
  exact ⟨_, mem_generate_signals hmem hsig, rfl, rfl, rfl, rfl, rfl, rfl⟩

/-- Witness for `whale_signal_characterization` at Scenario D: two
12000-USD sweeps by trader T1 in one batch yield a whale signal with
confidence 75. -/
theorem whale_signal_characterization_witness :
    ∃ sig ∈ generate_signals defaultConfig 1000
        [sweepScenarioD, sweepScenarioD] quotesBTC,
      sig.reason = "Whale" ∧ sig.confidence = 75 := by
  obtain ⟨sig, hmem, h1, _, _, h4, _, _⟩ :=
    whale_signal_characterization defaultConfig 1000
      [sweepScenarioD, sweepScenarioD] quotesBTC sweepScenarioD "BTC" 50000
      (by decide) (by simp [quotesBTC]) (List.mem_cons_self _ _)
      (by norm_num [sweepScenarioD, List.filter])
  exact ⟨sig, hmem, h1, h4⟩

/-- C9: A position whose symbol is absent from the cycle's quote map is
untouched: its evaluation step is the identity on the whole state (same
positions, balance, and trade history), and after the full evaluation
sweep the symbol still maps to the very same position. -/
theorem no_quote_position_untouched (cfg : Config) (quotes : Quotes)
    (st : BotState) (sym : String) (pos : Position)
    (hq : quotes sym = none) :
    update_one cfg quotes st (sym, pos) = st
    ∧ (keyConsistent st →
        posLookup (update_positions cfg quotes st).positions sym =
          posLookup st.positions sym) := by
  constructor
  · unfold update_one
    dsimp only
    rw [hq]
  · intro hkc
    exact update_fold_lookup_of_no_quote cfg quotes sym hq st.positions st hkc

/-- Witness for `no_quote_position_untouched`: with only an ETH quote
available, the BTC `samplePosition` is carried over unchanged. -/
theorem no_quote_position_untouched_witness :
    update_one defaultConfig quotesETH sampleState ("BTC", samplePosition)
        = sampleState
    ∧ posLookup (update_positions defaultConfig quotesETH sampleState).positions
        "BTC" = posLookup sampleState.positions "BTC" := by
  have h := no_quote_position_untouched defaultConfig quotesETH sampleState
    "BTC" samplePosition (by simp [quotesETH])
  refine ⟨h.1, h.2 ?_⟩
  intro p hp
  simp [sampleState] at hp
  subst hp
  rfl

/-- C10: The insufficient-balance rejection is strict — a signal with
`size ≤ balance` (equality included) passing the other checks is
admitted, with no minimum position size enforced; the liquidation
sizing formula returns 0 when the balance is 0; and a zero-size,
high-confidence signal against a zero balance is admitted as a size-0
position leaving the balance at 0. -/
theorem strict_balance_and_zero_size_admission :
    (∀ (cfg : Config) (st : BotState) (sig : Signal),
        posLookup st.positions sig.symbol = none →
        cfg.min_confidence ≤ sig.confidence →
        sig.size ≤ st.balance →
        (admit_signal cfg st sig).trade_counter = st.trade_counter + 1)
    ∧ (∀ usd cap : ℚ, 0 ≤ usd → 0 ≤ cap →
        min (min (usd * (1/100)) ((0 : ℚ) * (15/100))) cap = 0)
    ∧ (∀ (st : BotState) (sig : Signal),
        st.balance = 0 → sig.size = 0 →
        posLookup st.positions sig.symbol = none →
        defaultConfig.min_confidence ≤ sig.confidence →
        ∃ pos : Position,
          posLookup (admit_signal defaultConfig st sig).positions sig.symbol
              = some pos
          ∧ pos.size = 0
          ∧ (admit_signal defaultConfig st sig).balance = 0) := by
  refine ⟨?_, ?_, ?_⟩
  · intro cfg st sig hd hc hb
    have hb' : ¬ st.balance < sig.size := not_lt.mpr hb
    unfold admit_signal
    rw [if_pos hc, open_position_admit_eq cfg st sig hd hb']
  · intro usd cap h1 h2
    rw [zero_mul, min_eq_right (mul_nonneg h1 (by norm_num)), min_eq_left h2]
  · intro st sig hbal hsize hd hc
    have hb' : ¬ st.balance < sig.size := by
      rw [hbal, hsize]
      exact lt_irrefl 0
    have hadm : admit_signal defaultConfig st sig
        = open_position defaultConfig st sig := by
      unfold admit_signal
      rw [if_pos hc]
    rw [hadm, open_position_admit_eq defaultConfig st sig hd hb']
    refine ⟨{ id := st.trade_counter, symbol := sig.symbol, side := sig.side,
              entry_price := sig.price, size := sig.size,
              tp_price := if sig.side = "BUY"
                          then sig.price * (1 + defaultConfig.tp_percent / 100)
                          else sig.price * (1 - defaultConfig.tp_percent / 100),
              sl_price := if sig.side = "BUY"
                          then sig.price * (1 - defaultConfig.sl_percent / 100)
                          else sig.price * (1 + defaultConfig.sl_percent / 100),
              confidence := sig.confidence, reason := sig.reason },
           ?_, hsize, ?_⟩
    · rw [posLookup_append_right _ _ _ hd]
      exact posLookup_singleton _ _
    · show st.balance - sig.size = 0
      rw [hbal, hsize]
      norm_num

/-- Witness for `strict_balance_and_zero_size_admission`: a size-0
confidence-70 signal against a fresh zero-balance account is admitted
(size equals balance), the sizing formula yields 0 at zero balance, and
the resulting balance stays 0. -/
theorem strict_balance_and_zero_size_admission_witness :
    ((admit_signal defaultConfig (initial_state 0) zeroSignal).trade_counter
        = (initial_state 0).trade_counter + 1)
    ∧ min (min ((60000 : ℚ) * (1/100)) ((0 : ℚ) * (15/100))) 150 = 0
    ∧ (admit_signal defaultConfig (initial_state 0) zeroSignal).balance = 0 := by
  refine ⟨?_, ?_, ?_⟩
  · exact strict_balance_and_zero_size_admission.1 defaultConfig (initial_state 0)
      zeroSignal rfl (by norm_num [defaultConfig, zeroSignal])
      (by norm_num [initial_state, zeroSignal])
  · exact strict_balance_and_zero_size_admission.2.1 60000 150
      (by norm_num) (by norm_num)
  · obtain ⟨pos, -, -, h3⟩ :=
      strict_balance_and_zero_size_admission.2.2 (initial_state 0) zeroSignal
        rfl rfl rfl (by norm_num [defaultConfig, zeroSignal])
    exact h3

end PaperTradingBotRealPrice
